import Mathlib

/-!
Verification of the failure-extraction pipeline of the DevOps-Guardian-Agent
repository. The JavaScript sources are shallowly embedded:

* `extractErrorsFromLogs` (github-service.js, lines 180-220): log text is a
  `List Char`; the six JavaScript regular expressions `X.+` with flags `gi`
  are embedded by a literal case-insensitive matcher followed by a greedy
  run of non-line-terminator characters (JavaScript `.` excludes `\n`, `\r`,
  U+2028 and U+2029); global matching scans left to right and resumes after
  each match, which the `scanFuel` recursion mirrors (fuel = text length,
  which is always sufficient since every match consumes at least one
  character).
* the GitHub service functions are embedded with the network call replaced
  by an explicit response argument, since the claims are about what the
  functions do with the response.
* the HTTP handler (POST /agent/analyze) is embedded over an explicit
  request record with optional JSON-like field values, so that JavaScript
  truthiness of `errorLog` can be stated faithfully.
-/

namespace DevOpsAgent

/-- Line terminators excluded by an unflagged JavaScript `.`:
newline, carriage return, U+2028 and U+2029. -/
def isLineTerm (c : Char) : Bool :=
  c = '\n' || c = '\r' || c = Char.ofNat 0x2028 || c = Char.ofNat 0x2029

/-- Case-insensitive literal match of `pat` against a prefix of the text,
mirroring how a JavaScript regex with flag `i` matches an ASCII literal. -/
def litMatch : List Char → List Char → Bool
  | [], _ => true
  | _ :: _, [] => false
  | p :: ps, c :: cs => c.toLower = p.toLower && litMatch ps cs

/-- One attempt of the regex `pat.+` (flag `i`) at the start of `text`:
the literal must match and at least one non-terminator character must
follow; the match extends greedily to the end of the line. Returns the
matched substring and the remaining text after the match. -/
def matchAt (pat text : List Char) : Option (List Char × List Char) :=
  if litMatch pat text then
    let rest := text.drop pat.length
    let body := rest.takeWhile (fun c => !isLineTerm c)
    if body.isEmpty then none
    else some (text.take pat.length ++ body,
               rest.dropWhile (fun c => !isLineTerm c))
  else none

/-- Global scan of `pat.+` over the text (JavaScript `String.match` with
flag `g`): try each position left to right, resuming after each match.
Structural recursion on a fuel bounded below by the text length. -/
def scanFuel (pat : List Char) : Nat → List Char → List (List Char)
  | 0, _ => []
  | _ + 1, [] => []
  | fuel + 1, c :: cs =>
    match matchAt pat (c :: cs) with
    | some (m, rest) => m :: scanFuel pat fuel rest
    | none => scanFuel pat fuel cs

/-- All matches of `pat.+` in `text`, in document order. -/
def scan (pat text : List Char) : List (List Char) :=
  scanFuel pat text.length text

/-- Global scan instrumented with the absolute start position of each
match; `k` is the position of the head of the current text suffix. -/
def scanPosFuel (pat : List Char) : Nat → List Char → Nat → List (Nat × List Char)
  | 0, _, _ => []
  | _ + 1, [], _ => []
  | fuel + 1, c :: cs, k =>
    match matchAt pat (c :: cs) with
    | some (m, rest) => (k, m) :: scanPosFuel pat fuel rest (k + m.length)
    | none => scanPosFuel pat fuel cs (k + 1)

/-- Matches of `pat.+` in `text` paired with their start positions. -/
def scanPos (pat text : List Char) : List (Nat × List Char) :=
  scanPosFuel pat text.length text 0

/-- The fixed ordered pattern list of `extractErrorsFromLogs`
(github-service.js lines 188-195). -/
def errorPatterns : List (List Char) :=
  ["Error:".toList, "ERROR:".toList, "Failed:".toList,
   "FAILED:".toList, "[error]".toList, "fatal:".toList]

/-- The `errors` accumulator of `extractErrorsFromLogs` before truncation:
per-pattern match lists concatenated in declared pattern order
(github-service.js lines 197-203). -/
def allMatches (text : List Char) : List (List Char) :=
  (errorPatterns.map (fun p => scan p text)).flatten

/-- The pure text-to-excerpt part of `extractErrorsFromLogs`
(github-service.js lines 197-215): join the first 50 matches with
newlines; if that is empty, fall back to `logText.slice(-2000)`. -/
def extractErrorExcerpt (text : List Char) : List Char :=
  let errorText := List.intercalate ['\n'] ((allMatches text).take 50)
  if errorText.length > 0 then errorText
  else text.drop (text.length - 2000)

/-- A `Buffer` argument is modelled by its decoded text (`some text`);
`none` models a null/undefined argument, on which `logBuffer.toString`
throws a TypeError. -/
def bufToString : Option (List Char) → Except String (List Char)
  | none => Except.error "TypeError"
  | some t => Except.ok t

/-- The body of the `try` block of `extractErrorsFromLogs`
(github-service.js lines 182-215). -/
def extractTry (buf : Option (List Char)) : Except String (List Char) :=
  (bufToString buf).map extractErrorExcerpt

/-- `extractErrorsFromLogs` with its `try`/`catch` (github-service.js
lines 180-220): any thrown error is caught and replaced by the fixed
fallback string. -/
def extractErrorsFromLogs (buf : Option (List Char)) : List Char :=
  match extractTry buf with
  | Except.ok s => s
  | Except.error _ => "Unable to parse log content".toList

/-- Lines of a log text, split on newline; used to state the spec's
"lines beginning with a marker" wording. -/
def linesOf (text : List Char) : List (List Char) :=
  text.splitOn '\n'

/-- Whether a line begins (case-insensitively) with one of the declared
failure markers; this is the spec's wording, stated for comparison with
what the code actually matches. -/
def lineHasMarkerStart (l : List Char) : Bool :=
  errorPatterns.any (fun p => litMatch p l)

/-- A workflow run as used by `getLastFailedRun`: only the fields the
function touches are modelled; `created_at` is a comparable stamp so that
"not re-sorted by recency" can be stated. -/
structure WorkflowRun where
  id : Nat
  created_at : Nat
  deriving DecidableEq, Repr

/-- An error thrown by the HTTP layer, propagated unchanged. -/
structure ApiError where
  status : Nat
  deriving DecidableEq, Repr

/-- `getWorkflowRuns` (github-service.js lines 28-56) with the network
call replaced by its outcome: an error is rethrown; a successful response
yields `response.data.workflow_runs || []`, where `none` models an absent
`workflow_runs` field. -/
def getWorkflowRuns (resp : Except ApiError (Option (List WorkflowRun))) :
    Except ApiError (List WorkflowRun) :=
  match resp with
  | Except.error e => Except.error e
  | Except.ok none => Except.ok []
  | Except.ok (some rs) => Except.ok rs

/-- `getLastFailedRun` (github-service.js lines 65-82): on an empty run
list returns `null` (here `none`) as a normal result; otherwise returns
`runs[0]`; errors from `getWorkflowRuns` are rethrown. -/
def getLastFailedRun (resp : Except ApiError (Option (List WorkflowRun))) :
    Except ApiError (Option WorkflowRun) :=
  match getWorkflowRuns resp with
  | Except.error e => Except.error e
  | Except.ok runs =>
    match runs with
    | [] => Except.ok none
    | r :: _ => Except.ok (some r)

/-- A workflow step as consumed by `extractFailureInfo`. -/
structure Step where
  name : String
  number : Nat
  conclusion : String
  started_at : String
  completed_at : String
  deriving DecidableEq, Repr

/-- A workflow job as consumed by `extractFailureInfo`. -/
structure Job where
  name : String
  conclusion : String
  started_at : String
  completed_at : String
  steps : List Step
  deriving DecidableEq, Repr

/-- A failed-step summary produced by `extractFailureInfo`. -/
structure FailedStep where
  name : String
  number : Nat
  conclusion : String
  startedAt : String
  completedAt : String
  deriving DecidableEq, Repr

/-- A failed-job summary produced by `extractFailureInfo`. -/
structure FailedJob where
  name : String
  conclusion : String
  startedAt : String
  completedAt : String
  failedSteps : List FailedStep
  deriving DecidableEq, Repr

/-- The failure report produced by `extractFailureInfo`. -/
structure FailureInfo where
  runId : Nat
  failedJobsCount : Nat
  failedJobs : List FailedJob
  deriving DecidableEq, Repr

/-- The failed-step summary constructor of `extractFailureInfo`
(github-service.js lines 157-163). -/
def toFailedStep (s : Step) : FailedStep :=
  { name := s.name, number := s.number, conclusion := s.conclusion,
    startedAt := s.started_at, completedAt := s.completed_at }

/-- The failed-job summary constructor of `extractFailureInfo`
(github-service.js lines 150-164). -/
def toFailedJob (j : Job) : FailedJob :=
  { name := j.name, conclusion := j.conclusion,
    startedAt := j.started_at, completedAt := j.completed_at,
    failedSteps :=
      (j.steps.filter (fun s => s.conclusion = "failure")).map toFailedStep }

/-- The pure summarization step of `extractFailureInfo`
(github-service.js lines 145-165), applied to the fetched job list. -/
def summarizeFailures (runId : Nat) (jobs : List Job) : FailureInfo :=
  let failedJobs := jobs.filter (fun j => j.conclusion = "failure")
  { runId := runId,
    failedJobsCount := failedJobs.length,
    failedJobs := failedJobs.map toFailedJob }

/-- A JSON-like field value of the request body, with the values the
claims mention; JavaScript truthiness is decided by `truthy`. -/
inductive JVal where
  | str (s : String)
  | num (n : Int)
  | bool (b : Bool)
  | null
  deriving DecidableEq, Repr

/-- JavaScript truthiness of a `JVal`: empty string, zero, `false` and
`null` are falsy. -/
def truthy : JVal → Bool
  | JVal.str s => !(s = "")
  | JVal.num n => !(n = 0)
  | JVal.bool b => b
  | JVal.null => false

/-- The destructured body of a POST /agent/analyze request; `none`
models an absent field (`undefined` after destructuring). -/
structure AnalyzeRequest where
  runId : Option JVal
  runUrl : Option JVal
  failedJobs : Option JVal
  errorLog : Option JVal
  repository : Option JVal
  deriving DecidableEq, Repr

/-- The metadata object echoed in the 200 response (server file,
line 50). -/
structure RespMetadata where
  runId : Option JVal
  runUrl : Option JVal
  repository : Option JVal
  failedJobs : Option JVal
  deriving DecidableEq, Repr

/-- The 200 response body (server file, lines 46-51); the timestamp is
wall-clock output and is not modelled. -/
structure OkResponse where
  status : String
  message : String
  metadata : RespMetadata
  deriving DecidableEq, Repr

/-- Outcome of the analyze handler: a 400 JSON error, a 200 JSON body, or
a thrown TypeError (`errorLog.substring` on a truthy non-string). -/
inductive HandlerResult where
  | badRequest (error : String)
  | ok (resp : OkResponse)
  | thrown
  deriving DecidableEq, Repr

/-- The POST /agent/analyze handler (server file, lines 23-52): rejects
with 400 when `errorLog` is absent or falsy, otherwise logs a preview via
`errorLog.substring` (throwing on non-string values) and responds 200
with the echoed metadata. -/
def analyzeHandler (req : AnalyzeRequest) : HandlerResult :=
  match req.errorLog with
  | none => HandlerResult.badRequest "Missing required field: errorLog"
  | some v =>
    if truthy v then
      match v with
      | JVal.str _ =>
        HandlerResult.ok
          { status := "received",
            message := "Failure data logged. AI analysis not yet implemented.",
            metadata :=
              { runId := req.runId, runUrl := req.runUrl,
                repository := req.repository, failedJobs := req.failedJobs } }
      | _ => HandlerResult.thrown
    else HandlerResult.badRequest "Missing required field: errorLog"

lemma matchAt_nil (pat : List Char) : matchAt pat [] = none := by
  cases pat <;> simp [matchAt, litMatch]

lemma litMatch_length {pat text : List Char} (h : litMatch pat text = true) :
    pat.length ≤ text.length := by
  induction pat generalizing text with
  | nil => simp
  | cons p ps ih =>
    cases text with
    | nil => simp [litMatch] at h
    | cons c cs =>
      simp only [litMatch, Bool.and_eq_true] at h
      simpa using ih h.2

lemma litMatch_toLower {pat text : List Char} (h : litMatch pat text = true) :
    (text.take pat.length).map Char.toLower = pat.map Char.toLower := by
  induction pat generalizing text with
  | nil => simp
  | cons p ps ih =>
    cases text with
    | nil => simp [litMatch] at h
    | cons c cs =>
      simp only [litMatch, Bool.and_eq_true, decide_eq_true_eq] at h
      simp [List.take_succ_cons, h.1, ih h.2]

lemma litMatch_chars {pat text : List Char} (h : litMatch pat text = true) :
    ∀ c ∈ text.take pat.length, ∃ p ∈ pat, c.toLower = p.toLower := by
  induction pat generalizing text with
  | nil => simp
  | cons p ps ih =>
    cases text with
    | nil => simp [litMatch] at h
    | cons c cs =>
      simp only [litMatch, Bool.and_eq_true, decide_eq_true_eq] at h
      intro x hx
      rcases List.mem_cons.mp hx with rfl | hx
      · exact ⟨p, List.mem_cons_self _ _, h.1⟩
      · obtain ⟨q, hq, hqeq⟩ := ih h.2 x hx
        exact ⟨q, List.mem_cons_of_mem _ hq, hqeq⟩

lemma matchAt_eq {pat text m rest : List Char}
    (h : matchAt pat text = some (m, rest)) :
    text = m ++ rest ∧ pat.length < m.length := by
  unfold matchAt at h
  by_cases hl : litMatch pat text = true
  · simp only [hl, if_true] at h
    by_cases hb :
        ((text.drop pat.length).takeWhile (fun c => !isLineTerm c)).isEmpty
    · simp [hb] at h
    · simp only [hb, if_neg, Bool.false_eq_true, not_false_iff] at h
      obtain ⟨hm, hr⟩ := Prod.mk.injEq .. ▸ (Option.some.injEq .. ▸ h)
      constructor
      · rw [← hm, ← hr, List.append_assoc, List.takeWhile_append_dropWhile,
          List.take_append_drop]
      · rw [← hm, List.length_append,
          List.length_take, Nat.min_eq_left (litMatch_length hl)]
        have : ((text.drop pat.length).takeWhile
            (fun c => !isLineTerm c)).length ≠ 0 := by
          intro h0
          exact hb (by simpa [List.isEmpty_iff, List.length_eq_zero] using h0)
        omega
  · simp [hl] at h

lemma matchAt_take {pat text m rest : List Char}
    (h : matchAt pat text = some (m, rest)) :
    m.take pat.length = text.take pat.length ∧ litMatch pat text = true := by
  unfold matchAt at h
  by_cases hl : litMatch pat text = true
  · simp only [hl, if_true] at h
    by_cases hb :
        ((text.drop pat.length).takeWhile (fun c => !isLineTerm c)).isEmpty
    · simp [hb] at h
    · simp only [hb, if_neg, Bool.false_eq_true, not_false_iff] at h
      obtain ⟨hm, _⟩ := Prod.mk.injEq .. ▸ (Option.some.injEq .. ▸ h)
      refine ⟨?_, hl⟩
      rw [← hm]
      exact List.take_left' (by
        rw [List.length_take, Nat.min_eq_left (litMatch_length hl)])
  · simp [hl] at h

lemma matchAt_noTerm {pat text m rest : List Char}
    (hpat : ∀ p ∈ pat, isLineTerm p.toLower = false)
    (h : matchAt pat text = some (m, rest)) :
    ∀ c ∈ m, isLineTerm c = false := by
  unfold matchAt at h
  by_cases hl : litMatch pat text = true
  · simp only [hl, if_true] at h
    by_cases hb :
        ((text.drop pat.length).takeWhile (fun c => !isLineTerm c)).isEmpty
    · simp [hb] at h
    · simp only [hb, if_neg, Bool.false_eq_true, not_false_iff] at h
      obtain ⟨hm, _⟩ := Prod.mk.injEq .. ▸ (Option.some.injEq .. ▸ h)
      intro c hc
      rw [← hm] at hc
      rcases List.mem_append.mp hc with hc | hc
      · obtain ⟨p, hp, hlow⟩ := litMatch_chars hl c hc
        by_contra hterm
        have hterm' : isLineTerm c = true := by
          cases hx : isLineTerm c
          · exact absurd hx hterm
          · rfl
        have hfix : c.toLower = c := by
          simp only [isLineTerm, Bool.or_eq_true, decide_eq_true_eq] at hterm'
          rcases hterm' with ((rfl | rfl) | rfl) | rfl <;> decide
        rw [hfix] at hlow
        have hgood := hpat p hp
        rw [← hlow] at hgood
        rw [hgood] at hterm'
        exact Bool.false_ne_true hterm'
      · have := List.mem_takeWhile_imp hc
        simpa using this
  · simp [hl] at h

lemma patterns_good :
    ∀ pat ∈ errorPatterns, ∀ p ∈ pat, isLineTerm p.toLower = false := by
  decide

lemma matchAt_rest_length {pat m rest : List Char} {c : Char} {cs : List Char}
    (h : matchAt pat (c :: cs) = some (m, rest)) : rest.length ≤ cs.length := by
  obtain ⟨heq, hlt⟩ := matchAt_eq h
  have := congrArg List.length heq
  simp only [List.length_cons, List.length_append] at this
  omega

lemma scanFuel_congr (pat : List Char) :
    ∀ f₁ f₂ : Nat, ∀ text : List Char,
      text.length ≤ f₁ → text.length ≤ f₂ →
      scanFuel pat f₁ text = scanFuel pat f₂ text := by
  intro f₁
  induction f₁ with
  | zero =>
    intro f₂ text h₁ _
    have htext : text = [] := List.length_eq_zero.mp (Nat.le_zero.mp h₁)
    subst htext
    cases f₂ <;> simp [scanFuel]
  | succ f ih =>
    intro f₂ text h₁ h₂
    cases text with
    | nil => cases f₂ <;> simp [scanFuel]
    | cons c cs =>
      cases f₂ with
      | zero => simp at h₂
      | succ f₂' =>
        simp only [scanFuel]
        cases hm : matchAt pat (c :: cs) with
        | none =>
          exact ih f₂' cs (by simpa using h₁) (by simpa using h₂)
        | some pr =>
          obtain ⟨m, rest⟩ := pr
          have hlen := matchAt_rest_length hm
          simp only [List.length_cons] at h₁ h₂
          simp only [ih f₂' rest (by omega) (by omega)]

lemma scan_cons_none {pat : List Char} {c : Char} {cs : List Char}
    (h : matchAt pat (c :: cs) = none) : scan pat (c :: cs) = scan pat cs := by
  unfold scan
  simp only [List.length_cons, scanFuel, h]

lemma scan_cons_some {pat m rest : List Char} {c : Char} {cs : List Char}
    (h : matchAt pat (c :: cs) = some (m, rest)) :
    scan pat (c :: cs) = m :: scan pat rest := by
  unfold scan
  simp only [List.length_cons, scanFuel, h]
  congr 1
  exact scanFuel_congr pat cs.length rest.length rest
    (matchAt_rest_length h) (Nat.le_refl _)

lemma mem_scanFuel_matchAt {pat : List Char} :
    ∀ fuel : Nat, ∀ text : List Char, ∀ m ∈ scanFuel pat fuel text,
      ∃ text' rest, matchAt pat text' = some (m, rest) := by
  intro fuel
  induction fuel with
  | zero => intro text m hm; simp [scanFuel] at hm
  | succ f ih =>
    intro text m hm
    cases text with
    | nil => simp [scanFuel] at hm
    | cons c cs =>
      simp only [scanFuel] at hm
      cases hmt : matchAt pat (c :: cs) with
      | none =>
        rw [hmt] at hm
        exact ih cs m hm
      | some pr =>
        obtain ⟨m₀, rest⟩ := pr
        rw [hmt] at hm
        rcases List.mem_cons.mp hm with rfl | hm
        · exact ⟨c :: cs, rest, hmt⟩
        · exact ih rest m hm

lemma mem_scan_matchAt {pat text m : List Char} (hm : m ∈ scan pat text) :
    ∃ text' rest, matchAt pat text' = some (m, rest) :=
  mem_scanFuel_matchAt text.length text m hm

lemma scanFuel_ne_nil {pat : List Char} :
    ∀ fuel : Nat, ∀ text : List Char, text.length ≤ fuel →
      (∃ n, matchAt pat (text.drop n) ≠ none) → scanFuel pat fuel text ≠ [] := by
  intro fuel
  induction fuel with
  | zero =>
    intro text h₁ h₂
    have htext : text = [] := List.length_eq_zero.mp (Nat.le_zero.mp h₁)
    subst htext
    obtain ⟨n, hn⟩ := h₂
    rw [List.drop_nil] at hn
    exact absurd (matchAt_nil pat) hn
  | succ f ih =>
    intro text h₁ h₂
    cases text with
    | nil =>
      obtain ⟨n, hn⟩ := h₂
      rw [List.drop_nil] at hn
      exact absurd (matchAt_nil pat) hn
    | cons c cs =>
      simp only [scanFuel]
      cases hmt : matchAt pat (c :: cs) with
      | none =>
        obtain ⟨n, hn⟩ := h₂
        cases n with
        | zero => rw [List.drop_zero] at hn; exact absurd hmt hn
        | succ k =>
          rw [List.drop_succ_cons] at hn
          exact ih cs (by simpa using h₁) ⟨k, hn⟩
      | some pr =>
        obtain ⟨m₀, rest⟩ := pr
        exact List.cons_ne_nil _ _

lemma scan_ne_nil {pat text : List Char}
    (h : ∃ n, matchAt pat (text.drop n) ≠ none) : scan pat text ≠ [] :=
  scanFuel_ne_nil text.length text (Nat.le_refl _) h

lemma scanPosFuel_snd (pat : List Char) :
    ∀ fuel : Nat, ∀ text : List Char, ∀ k : Nat,
      (scanPosFuel pat fuel text k).map Prod.snd = scanFuel pat fuel text := by
  intro fuel
  induction fuel with
  | zero => intro text k; simp [scanPosFuel, scanFuel]
  | succ f ih =>
    intro text k
    cases text with
    | nil => simp [scanPosFuel, scanFuel]
    | cons c cs =>
      simp only [scanPosFuel, scanFuel]
      cases hmt : matchAt pat (c :: cs) with
      | none => exact ih cs (k + 1)
      | some pr =>
        obtain ⟨m, rest⟩ := pr
        simp [ih rest (k + m.length)]

lemma scanPosFuel_ge {pat : List Char} :
    ∀ fuel : Nat, ∀ text : List Char, ∀ k : Nat,
      ∀ p ∈ scanPosFuel pat fuel text k, k ≤ p.1 := by
  intro fuel
  induction fuel with
  | zero => intro text k p hp; simp [scanPosFuel] at hp
  | succ f ih =>
    intro text k p hp
    cases text with
    | nil => simp [scanPosFuel] at hp
    | cons c cs =>
      simp only [scanPosFuel] at hp
      cases hmt : matchAt pat (c :: cs) with
      | none =>
        rw [hmt] at hp
        have := ih cs (k + 1) p hp
        omega
      | some pr =>
        obtain ⟨m, rest⟩ := pr
        rw [hmt] at hp
        rcases List.mem_cons.mp hp with rfl | hp
        · exact Nat.le_refl _
        · have := ih rest (k + m.length) p hp
          omega

lemma scanPosFuel_occ {pat : List Char} :
    ∀ fuel : Nat, ∀ text : List Char, ∀ k : Nat,
      ∀ p ∈ scanPosFuel pat fuel text k,
        ∃ r, text.drop (p.1 - k) = p.2 ++ r := by
  intro fuel
  induction fuel with
  | zero => intro text k p hp; simp [scanPosFuel] at hp
  | succ f ih =>
    intro text k p hp
    cases text with
    | nil => simp [scanPosFuel] at hp
    | cons c cs =>
      simp only [scanPosFuel] at hp
      cases hmt : matchAt pat (c :: cs) with
      | none =>
        rw [hmt] at hp
        have hge := scanPosFuel_ge f cs (k + 1) p hp
        obtain ⟨r, hr⟩ := ih cs (k + 1) p hp
        refine ⟨r, ?_⟩
        have hsub : p.1 - k = (p.1 - (k + 1)) + 1 := by omega
        rw [hsub, List.drop_succ_cons, hr]
      | some pr =>
        obtain ⟨m, rest⟩ := pr
        rw [hmt] at hp
        obtain ⟨heq, _⟩ := matchAt_eq hmt
        rcases List.mem_cons.mp hp with rfl | hp
        · exact ⟨rest, by simpa using heq⟩
        · have hge := scanPosFuel_ge f rest (k + m.length) p hp
          obtain ⟨r, hr⟩ := ih rest (k + m.length) p hp
          refine ⟨r, ?_⟩
          have hsub : p.1 - k = m.length + (p.1 - (k + m.length)) := by omega
          rw [heq, hsub, ← List.drop_drop, List.drop_left, hr]

lemma scanPosFuel_chain {pat : List Char} :
    ∀ fuel : Nat, ∀ text : List Char, ∀ k : Nat,
      List.Chain' (fun a b : Nat × List Char => a.1 < b.1)
        (scanPosFuel pat fuel text k) := by
  intro fuel
  induction fuel with
  | zero => intro text k; simp [scanPosFuel]
  | succ f ih =>
    intro text k
    cases text with
    | nil => simp [scanPosFuel]
    | cons c cs =>
      simp only [scanPosFuel]
      cases hmt : matchAt pat (c :: cs) with
      | none => exact ih cs (k + 1)
      | some pr =>
        obtain ⟨m, rest⟩ := pr
        rw [List.chain'_cons']
        refine ⟨?_, ih rest (k + m.length)⟩
        intro y hy
        have hymem := List.mem_of_mem_head? hy
        have hge := scanPosFuel_ge f rest (k + m.length) y hymem
        obtain ⟨_, hlt⟩ := matchAt_eq hmt
        simp only
        omega

lemma allMatches_sound {text m : List Char} (hm : m ∈ allMatches text) :
    ∃ pat ∈ errorPatterns,
      (m.take pat.length).map Char.toLower = pat.map Char.toLower ∧
      pat.length < m.length ∧ ∀ c ∈ m, isLineTerm c = false := by
  unfold allMatches at hm
  rw [List.mem_flatten] at hm
  obtain ⟨l, hl, hml⟩ := hm
  rw [List.mem_map] at hl
  obtain ⟨pat, hpat, rfl⟩ := hl
  obtain ⟨text', rest, hmt⟩ := mem_scan_matchAt hml
  refine ⟨pat, hpat, ?_, (matchAt_eq hmt).2,
    matchAt_noTerm (patterns_good pat hpat) hmt⟩
  obtain ⟨htake, hlit⟩ := matchAt_take hmt
  rw [htake]
  exact litMatch_toLower hlit

lemma allMatches_complete {text : List Char}
    (h : ∃ pat ∈ errorPatterns, ∃ n, matchAt pat (text.drop n) ≠ none) :
    allMatches text ≠ [] := by
  obtain ⟨pat, hpat, hex⟩ := h
  intro hnil
  unfold allMatches at hnil
  rw [List.flatten_eq_nil_iff] at hnil
  exact scan_ne_nil hex
    (hnil (scan pat text) (List.mem_map_of_mem (fun p => scan p text) hpat))

lemma mem_allMatches_ne_nil {text m : List Char} (hm : m ∈ allMatches text) :
    m ≠ [] := by
  obtain ⟨pat, _, _, hlt, _⟩ := allMatches_sound hm
  intro h0
  rw [h0] at hlt
  simp at hlt

lemma newline_not_mem_allMatches {text m : List Char}
    (hm : m ∈ allMatches text) : ('\n' : Char) ∉ m := by
  obtain ⟨pat, _, _, _, hterm⟩ := allMatches_sound hm
  intro hmem
  have := hterm '\n' hmem
  simp [isLineTerm] at this

lemma excerpt_of_matches {text : List Char} (h : allMatches text ≠ []) :
    extractErrorExcerpt text =
      List.intercalate ['\n'] ((allMatches text).take 50) ∧
    (extractErrorExcerpt text).splitOn '\n' = (allMatches text).take 50 ∧
    extractErrorExcerpt text ≠ [] := by
  have htake : (allMatches text).take 50 ≠ [] := by
    rw [Ne, List.take_eq_nil_iff]
    push_neg
    exact ⟨by omega, h⟩
  have hsplit :
      (List.intercalate ['\n'] ((allMatches text).take 50)).splitOn '\n' =
        (allMatches text).take 50 :=
    List.splitOn_intercalate ((allMatches text).take 50) '\n'
      (fun l hl => newline_not_mem_allMatches (List.mem_of_mem_take hl)) htake
  have hne : List.intercalate ['\n'] ((allMatches text).take 50) ≠ [] := by
    intro h0
    rw [h0, List.splitOn_nil] at hsplit
    have hmem : ([] : List Char) ∈ (allMatches text).take 50 := by
      rw [← hsplit]
      exact List.mem_singleton_self _
    exact mem_allMatches_ne_nil (List.mem_of_mem_take hmem) rfl
  have hbranch : extractErrorExcerpt text =
      List.intercalate ['\n'] ((allMatches text).take 50) := by
    simp only [extractErrorExcerpt]
    rw [if_pos (by simpa [gt_iff_lt, List.length_pos] using hne)]
  refine ⟨hbranch, ?_, ?_⟩
  · rw [hbranch]
    exact hsplit
  · rw [hbranch]
    exact hne

lemma excerpt_of_no_matches {text : List Char} (h : allMatches text = []) :
    extractErrorExcerpt text = text.drop (text.length - 2000) := by
  simp [extractErrorExcerpt, h, List.intercalate]

/-- The spec's scenario log text for the pattern extractor. -/
def scenarioText : List Char :=
  "foo\nError: disk full\nbar\nERROR: retry failed\n".toList

/-- Claim C1 counterexample: on the spec's scenario text the excerpt is not
the claimed two-line string; because the `Error:` and `ERROR:` patterns are
both case-insensitive, each of the two error lines is matched by both
patterns and appears twice. -/
theorem claim_C1_counterexample :
    extractErrorExcerpt scenarioText ≠
      "Error: disk full\nERROR: retry failed".toList ∧
    extractErrorExcerpt scenarioText =
      ("Error: disk full\nERROR: retry failed\n" ++
        "Error: disk full\nERROR: retry failed").toList := by
  decide

/-- Claim C1 (amended): on the scenario text the excerpt is the four-line
string in which each error line appears once per duplicating pattern; in
general each pattern contributes all of its matches in document order
(matches are listed at strictly increasing positions, and each listed
match does occur at its listed position), and the per-pattern match groups
are concatenated in the fixed declared pattern order. -/
theorem claim_C1 :
    extractErrorExcerpt scenarioText =
      ("Error: disk full\nERROR: retry failed\n" ++
        "Error: disk full\nERROR: retry failed").toList ∧
    (∀ text : List Char,
      allMatches text = (errorPatterns.map (fun p => scan p text)).flatten) ∧
    (∀ pat text : List Char,
      scan pat text = (scanPos pat text).map Prod.snd ∧
      List.Chain' (fun a b : Nat × List Char => a.1 < b.1) (scanPos pat text) ∧
      ∀ p ∈ scanPos pat text, ∃ r, text.drop p.1 = p.2 ++ r) := by
  refine ⟨by decide, fun text => rfl, fun pat text => ⟨?_, ?_, ?_⟩⟩
  · exact (scanPosFuel_snd pat text.length text 0).symm
  · exact scanPosFuel_chain text.length text 0
  · intro p hp
    have h := scanPosFuel_occ text.length text 0 p hp
    simpa using h

/-- Witness for claim C1: the first listed match of the `Error:` pattern on
the scenario text occurs at its listed position 4. -/
theorem claim_C1_witness :
    ∃ r, scenarioText.drop 4 = "Error: disk full".toList ++ r :=
  by
  have h := (claim_C1.2.2 "Error:".toList scenarioText).2.2
    (4, "Error: disk full".toList) (by decide)
  simpa using h

/-- Claim C2 counterexample: the text `"xx Error: y"` has no line beginning
with a marker, yet the patterns do match (the marker may occur anywhere in
a line), and the excerpt is the matched substrings, not the tail
fallback. -/
theorem claim_C2_counterexample :
    linesOf "xx Error: y".toList = ["xx Error: y".toList] ∧
    lineHasMarkerStart "xx Error: y".toList = false ∧
    allMatches "xx Error: y".toList =
      ["Error: y".toList, "Error: y".toList] ∧
    extractErrorExcerpt "xx Error: y".toList = "Error: y\nError: y".toList := by
  decide

/-- Claim C2 (amended): a pattern match arises from a marker occurrence
anywhere in a line (matched case-insensitively) followed by at least one
non-line-terminator character, and runs from the marker to the end of the
line; whenever such an occurrence exists, the output is non-empty and its
lines are exactly the first 50 matches (no tail fallback), and every match
begins (case-insensitively) with its marker. -/
theorem claim_C2 :
    ∀ text : List Char,
      ((∃ pat ∈ errorPatterns, ∃ n, matchAt pat (text.drop n) ≠ none) →
        allMatches text ≠ [] ∧
        extractErrorExcerpt text ≠ [] ∧
        (extractErrorExcerpt text).splitOn '\n' = (allMatches text).take 50) ∧
      (∀ m ∈ allMatches text, ∃ pat ∈ errorPatterns,
        (m.take pat.length).map Char.toLower = pat.map Char.toLower ∧
        pat.length < m.length ∧ ∀ c ∈ m, isLineTerm c = false) := by
  intro text
  constructor
  · intro hex
    have h := allMatches_complete hex
    obtain ⟨_, hsplit, hne⟩ := excerpt_of_matches h
    exact ⟨h, hne, hsplit⟩
  · exact fun m hm => allMatches_sound hm

/-- Witness for claim C2: the text `"xx Failed: z"` contains a marker
occurrence, so the excerpt is non-empty and consists of the matches. -/
theorem claim_C2_witness :
    allMatches "xx Failed: z".toList ≠ [] ∧
    extractErrorExcerpt "xx Failed: z".toList ≠ [] ∧
    (extractErrorExcerpt "xx Failed: z".toList).splitOn '\n' =
      (allMatches "xx Failed: z".toList).take 50 :=
  (claim_C2 "xx Failed: z".toList).1
    ⟨"Failed:".toList, by decide, 3, by decide⟩

/-- Claim C4 (confirmed): with zero matches across all patterns, the
excerpt is exactly the last `min 2000 (length text)` characters of the
text. -/
theorem claim_C4 :
    ∀ text : List Char, allMatches text = [] →
      extractErrorExcerpt text = text.drop (text.length - 2000) ∧
      (extractErrorExcerpt text).length = min 2000 text.length := by
  intro text h
  have he := excerpt_of_no_matches h
  refine ⟨he, ?_⟩
  rw [he, List.length_drop]
  omega

/-- Witness for claim C4: a text with no marker falls back to its tail. -/
theorem claim_C4_witness :
    extractErrorExcerpt "hello world".toList =
      ("hello world".toList).drop ("hello world".toList.length - 2000) ∧
    (extractErrorExcerpt "hello world".toList).length =
      min 2000 "hello world".toList.length :=
  claim_C4 "hello world".toList (by decide)

/-- Claim C5 (confirmed): the pattern-matched output of the extractor has
at most 50 lines, however many matches exist. -/
theorem claim_C5 :
    ∀ text : List Char, allMatches text ≠ [] →
      ((extractErrorExcerpt text).splitOn '\n').length ≤ 50 := by
  intro text h
  obtain ⟨_, hsplit, _⟩ := excerpt_of_matches h
  rw [hsplit, List.length_take]
  omega

/-- Witness for claim C5 at the scenario text. -/
theorem claim_C5_witness :
    ((extractErrorExcerpt scenarioText).splitOn '\n').length ≤ 50 :=
  claim_C5 scenarioText (by decide)

/-- Claim C8 (confirmed): a non-empty log text always yields a non-empty
excerpt, whether from pattern matches or from the tail fallback. -/
theorem claim_C8 :
    ∀ text : List Char, text ≠ [] → extractErrorExcerpt text ≠ [] := by
  intro text h
  by_cases hm : allMatches text = []
  · rw [excerpt_of_no_matches hm]
    intro h0
    have hlen := congrArg List.length h0
    rw [List.length_drop] at hlen
    have hne : text.length ≠ 0 := fun h' => h (List.length_eq_zero.mp h')
    simp only [List.length_nil] at hlen
    omega
  · exact (excerpt_of_matches hm).2.2

/-- Witness for claim C8 on a one-character text. -/
theorem claim_C8_witness : extractErrorExcerpt "x".toList ≠ [] :=
  claim_C8 "x".toList (by decide)

/-- Claim C9 (confirmed): `extractErrorsFromLogs` always returns a string
value; a buffer argument on which `toString` throws (null/undefined,
modelled by `none`) degrades to the fixed "Unable to parse log content"
string instead of propagating the error. -/
theorem claim_C9 :
    ∀ buf : Option (List Char),
      (extractErrorsFromLogs buf = "Unable to parse log content".toList ∨
        ∃ t, buf = some t ∧ extractErrorsFromLogs buf = extractErrorExcerpt t) ∧
      (buf = none →
        extractErrorsFromLogs buf = "Unable to parse log content".toList) := by
  intro buf
  cases buf with
  | none => exact ⟨Or.inl rfl, fun _ => rfl⟩
  | some t =>
    refine ⟨Or.inr ⟨t, rfl, rfl⟩, fun h => ?_⟩
    simp at h

/-- Witness for claim C9: the unparseable buffer yields the fallback
string. -/
theorem claim_C9_witness :
    extractErrorsFromLogs none = "Unable to parse log content".toList :=
  (claim_C9 none).2 rfl

/-- Whether the handler's `if (!errorLog)` guard fires: the field is
absent or its value is falsy. -/
def errorLogFalsy (req : AnalyzeRequest) : Bool :=
  match req.errorLog with
  | none => true
  | some v => !truthy v

/-- A push-mode request whose `errorLog` is present but the empty
string. -/
def reqEmptyLog : AnalyzeRequest :=
  { runId := none, runUrl := none, failedJobs := none,
    errorLog := some (JVal.str ""), repository := none }

/-- A push-mode request with `errorLog = "x"` and no other fields. -/
def reqWithLog : AnalyzeRequest :=
  { runId := none, runUrl := none, failedJobs := none,
    errorLog := some (JVal.str "x"), repository := none }

/-- Claim C3 counterexample: a request whose `errorLog` field is present
but equal to the empty string is rejected with the 400 missing-field
response, so presence of the field is not equivalent to acceptance. -/
theorem claim_C3_counterexample :
    reqEmptyLog.errorLog ≠ none ∧
    analyzeHandler reqEmptyLog =
      HandlerResult.badRequest "Missing required field: errorLog" := by
  exact ⟨by decide, rfl⟩

/-- Claim C3 (amended): a push-mode request is rejected with the 400
missing-field response exactly when `errorLog` is absent or falsy (empty
string, 0, false, null); a request whose `errorLog` is a non-empty string
is accepted with status "received" and a metadata object echoing `runId`,
`runUrl`, `repository` and `failedJobs`, with `none` for absent fields. -/
theorem claim_C3 :
    ∀ req : AnalyzeRequest,
      (analyzeHandler req =
          HandlerResult.badRequest "Missing required field: errorLog" ↔
        errorLogFalsy req = true) ∧
      (∀ s : String, req.errorLog = some (JVal.str s) → s ≠ "" →
        analyzeHandler req = HandlerResult.ok
          { status := "received",
            message := "Failure data logged. AI analysis not yet implemented.",
            metadata := { runId := req.runId, runUrl := req.runUrl,
                          repository := req.repository,
                          failedJobs := req.failedJobs } }) := by
  intro req
  obtain ⟨rid, rurl, rfj, relog, rrepo⟩ := req
  cases relog with
  | none =>
    refine ⟨by simp [analyzeHandler, errorLogFalsy], ?_⟩
    intro s hs
    simp at hs
  | some v =>
    refine ⟨?_, ?_⟩
    · cases hv : truthy v with
      | false => simp [analyzeHandler, errorLogFalsy, hv]
      | true =>
        cases v with
        | str s => simp [analyzeHandler, errorLogFalsy, hv]
        | num n => simp [analyzeHandler, errorLogFalsy, hv]
        | bool b => simp [analyzeHandler, errorLogFalsy, hv]
        | null => simp [truthy] at hv
    · intro s hs hne
      have hv : v = JVal.str s := by
        simpa using hs
      subst hv
      have ht : truthy (JVal.str s) = true := by
        simp [truthy, hne]
      simp [analyzeHandler, ht]

/-- Witness for claim C3: the request with `errorLog = "x"` and no other
fields is accepted, echoing `none` metadata values. -/
theorem claim_C3_witness :
    analyzeHandler reqWithLog = HandlerResult.ok
      { status := "received",
        message := "Failure data logged. AI analysis not yet implemented.",
        metadata := { runId := none, runUrl := none,
                      repository := none, failedJobs := none } } :=
  (claim_C3 reqWithLog).2 "x" rfl (by decide)

/-- Claim C10 (confirmed): a present-but-falsy `errorLog` (empty string,
0, false, null) is rejected with the same 400 missing-field response as an
absent `errorLog`. -/
theorem claim_C10 :
    ∀ (req : AnalyzeRequest) (v : JVal), truthy v = false →
      analyzeHandler { req with errorLog := some v } =
        HandlerResult.badRequest "Missing required field: errorLog" ∧
      analyzeHandler { req with errorLog := some v } =
        analyzeHandler { req with errorLog := none } := by
  intro req v hv
  constructor <;> simp [analyzeHandler, hv]

/-- Witness for claim C10 at the falsy value 0. -/
theorem claim_C10_witness :
    truthy (JVal.num 0) = false ∧
    analyzeHandler { reqWithLog with errorLog := some (JVal.num 0) } =
      HandlerResult.badRequest "Missing required field: errorLog" :=
  ⟨by decide, (claim_C10 reqWithLog (JVal.num 0) (by decide)).1⟩

/-- An older failing run listed first by the API. -/
def runA : WorkflowRun := { id := 1, created_at := 5 }

/-- A newer failing run listed second by the API. -/
def runB : WorkflowRun := { id := 2, created_at := 99 }

/-- Claim C6 (confirmed): `getLastFailedRun` returns the element at index
0 of the API's sequence whenever it is non-empty — even when a later
element has a newer creation stamp, so no local re-sort happens — and
returns `none` (NotFound) as a normal result on an empty or absent
sequence, while API errors propagate unchanged. -/
theorem claim_C6 :
    (∀ (r : WorkflowRun) (rs : List WorkflowRun),
      getLastFailedRun (Except.ok (some (r :: rs))) = Except.ok (some r)) ∧
    getLastFailedRun (Except.ok (some ([] : List WorkflowRun))) =
      Except.ok none ∧
    getLastFailedRun (Except.ok (none : Option (List WorkflowRun))) =
      Except.ok none ∧
    runA.created_at < runB.created_at ∧
    getLastFailedRun (Except.ok (some [runA, runB])) = Except.ok (some runA) ∧
    (∀ e : ApiError, getLastFailedRun (Except.error e) = Except.error e) :=
  ⟨fun r rs => rfl, rfl, rfl, by decide, rfl, fun e => rfl⟩

/-- Witness for claim C6: with the newer run listed second, the first
listed (older) run is returned. -/
theorem claim_C6_witness :
    getLastFailedRun (Except.ok (some [runA, runB])) = Except.ok (some runA) :=
  claim_C6.2.2.2.2.1

/-- The spec scenario's failing step. -/
def stepCompile : Step :=
  { name := "compile", number := 1, conclusion := "failure",
    started_at := "", completed_at := "" }

/-- The spec scenario's succeeding step. -/
def stepTest : Step :=
  { name := "test", number := 2, conclusion := "success",
    started_at := "", completed_at := "" }

/-- The spec scenario's failing job. -/
def jobBuild : Job :=
  { name := "build", conclusion := "failure", started_at := "",
    completed_at := "", steps := [stepCompile, stepTest] }

/-- The spec scenario's succeeding job. -/
def jobLint : Job :=
  { name := "lint", conclusion := "success", started_at := "",
    completed_at := "", steps := [] }

/-- Claim C7 (confirmed): the summarization step retains exactly the
failed jobs in their original relative order, retains within each exactly
the failed steps in their original order, reports `failedJobsCount` equal
to the length of the retained sequence, and is deterministic (two
applications to the same job sequence yield equal reports). -/
theorem claim_C7 :
    ∀ (runId : Nat) (jobs : List Job),
      (summarizeFailures runId jobs).failedJobsCount =
        (summarizeFailures runId jobs).failedJobs.length ∧
      (summarizeFailures runId jobs).failedJobs.map FailedJob.name =
        (jobs.filter (fun j => j.conclusion = "failure")).map Job.name ∧
      ((summarizeFailures runId jobs).failedJobs.map FailedJob.name).Sublist
        (jobs.map Job.name) ∧
      (∀ fj ∈ (summarizeFailures runId jobs).failedJobs,
        ∃ j ∈ jobs, j.conclusion = "failure" ∧ fj.name = j.name ∧
          fj.failedSteps.map FailedStep.name =
            ((j.steps.filter (fun s => s.conclusion = "failure")).map
              Step.name) ∧
          (fj.failedSteps.map FailedStep.number).Sublist
            (j.steps.map Step.number) ∧
          ∀ st ∈ fj.failedSteps, st.conclusion = "failure") ∧
      summarizeFailures runId jobs = summarizeFailures runId jobs := by
  intro runId jobs
  refine ⟨?_, ?_, ?_, ?_, rfl⟩
  · simp [summarizeFailures]
  · simp [summarizeFailures, toFailedJob, List.map_map]
  · have h : ((summarizeFailures runId jobs).failedJobs.map FailedJob.name) =
        (jobs.filter (fun j => j.conclusion = "failure")).map Job.name := by
      simp [summarizeFailures, toFailedJob, List.map_map]
    rw [h]
    exact (List.filter_sublist jobs).map Job.name
  · intro fj hfj
    simp only [summarizeFailures, List.mem_map] at hfj
    obtain ⟨j, hj, rfl⟩ := hfj
    rw [List.mem_filter] at hj
    refine ⟨j, hj.1, by simpa using hj.2, rfl, ?_, ?_, ?_⟩
    · simp [toFailedJob, toFailedStep, List.map_map]
    · have h : ((toFailedJob j).failedSteps.map FailedStep.number) =
          (j.steps.filter (fun s => s.conclusion = "failure")).map
            Step.number := by
        simp [toFailedJob, toFailedStep, List.map_map]
      rw [h]
      exact (List.filter_sublist j.steps).map Step.number
    · intro st hst
      simp only [toFailedJob, List.mem_map] at hst
      obtain ⟨s, hs, rfl⟩ := hst
      rw [List.mem_filter] at hs
      simpa [toFailedStep] using hs.2

/-- Witness for claim C7 at the spec's scenario jobs: the `build` job is
retained with exactly its failing `compile` step. -/
theorem claim_C7_witness :
    ∃ j ∈ [jobBuild, jobLint], j.conclusion = "failure" ∧
      (toFailedJob jobBuild).name = j.name ∧
      (toFailedJob jobBuild).failedSteps.map FailedStep.name =
        ((j.steps.filter (fun s => s.conclusion = "failure")).map
          Step.name) ∧
      ((toFailedJob jobBuild).failedSteps.map FailedStep.number).Sublist
        (j.steps.map Step.number) ∧
      ∀ st ∈ (toFailedJob jobBuild).failedSteps, st.conclusion = "failure" :=
  (claim_C7 7 [jobBuild, jobLint]).2.2.2.1 (toFailedJob jobBuild) (by decide)

end DevOpsAgent
